import Mathlib

/-!
Verification of the comparison/diff engine of the CDC_zim_mirror repository.

The development shallowly embeds the relevant Python code:
  * `src/compare_feature/compare_processor.py` (`_validate_url`, `get_comparison_data`)
  * `src/compare_feature/compare_utils.py` (`fetch_and_process_url` error paths,
    `normalize_whitespace`)
  * `src/compare_html/compare.py` (`validate_url`, `normalize_indents`,
    `generate_comparison` control flow)
together with the parts of the standard library the code relies on:
`difflib.SequenceMatcher` (configured exactly as the processor configures it:
`isjunk=None`, `autojunk=False`), `str.splitlines`, `str.strip`, `str.lower`,
`str.startswith`, `str.endswith` and `urllib.parse.urlparse` results.

Python strings are embedded as `List Char` (`PyStr`); Python `None` becomes
`Option`; raised exceptions become `Except`.
-/

/-- A Python string, embedded as its list of characters. -/
abbrev PyStr := List Char

namespace CdcCompare

/-- Python `str.lower()` restricted to the ASCII case mapping, which is all
that hostnames and schemes exercise here. -/
def pyLower (s : PyStr) : PyStr := s.map Char.toLower

/-- The character class of Python `str.strip()` / default whitespace
(the ASCII whitespace characters that `str.strip()` removes). -/
def pySpace (c : Char) : Bool :=
  c = ' ' ∨ c = '\t' ∨ c = '\n' ∨ c = '\r' ∨ c = '\x0B' ∨ c = '\x0C'

/-- Python `line.strip()`: drop leading and trailing whitespace. -/
def pyStrip (s : PyStr) : PyStr :=
  ((s.dropWhile pySpace).reverse.dropWhile pySpace).reverse

/-- The line-break characters recognised by Python `str.splitlines`. -/
def pyLineBreak (c : Char) : Bool :=
  c = '\n' ∨ c = '\r' ∨ c = '\x0B' ∨ c = '\x0C' ∨ c = '\x1C' ∨ c = '\x1D' ∨
  c = '\x1E' ∨ c = '\x85' ∨ c = '\u2028' ∨ c = '\u2029'

/-- Worker for `splitlines`: `acc` holds the current line reversed.  A line is
emitted at every line break (the pair `"\r\n"` counts as a single break); a
final segment is emitted only when nonempty, matching Python, where
`"".splitlines() = []` and `"a\n".splitlines() = ["a"]`. -/
def splitlinesAux : PyStr → PyStr → List PyStr
  | acc, [] => if acc = [] then [] else [acc.reverse]
  | acc, '\r' :: '\n' :: rest => acc.reverse :: splitlinesAux [] rest
  | acc, c :: rest =>
      if pyLineBreak c then acc.reverse :: splitlinesAux [] rest
      else splitlinesAux (c :: acc) rest

/-- Python `str.splitlines()` (with `keepends=False`). -/
def splitlines (s : PyStr) : List PyStr := splitlinesAux [] s

/-- `compare_utils.normalize_whitespace`: strip each line of a list.  (The
non-list branch of the Python function is unreachable under its `List[str]`
type and is not modelled.) -/
def normalize_whitespace (text_lines : List PyStr) : List PyStr :=
  text_lines.map pyStrip

/-- The result of `urllib.parse.urlparse` as the validators consume it:
`scheme`, `netloc`, and the derived `hostname` (which `urlparse` reports
without the port, or `None` when absent).  `urlparse` itself is standard
library code; the validators are modelled over its output. -/
structure ParsedUrl where
  scheme : PyStr
  netloc : PyStr
  hostname : Option PyStr
deriving DecidableEq

/-- `compare_processor._validate_url`, lines 27-88: scheme must be in
`allowed_schemes` (lowercased), netloc and hostname must be nonempty, and the
lowercased hostname must exactly equal a lowercased entry of `allowed_hosts`
or, when `allow_subdomains` is true, end with `"." + entry`.  The Python
`try/except` around parsing cannot fire in this model because the parse is an
input. -/
def validate_url_internal (u : ParsedUrl) (allowed_schemes allowed_hosts : List PyStr)
    (allow_subdomains : Bool) : Bool :=
  if u.scheme = [] ∨ pyLower u.scheme ∉ allowed_schemes then false
  else if u.netloc = [] then false
  else
    let hostname := pyLower (u.hostname.getD [])
    if hostname = [] then false
    else
      allowed_hosts.any fun allowed_host =>
        let ahl := pyLower allowed_host
        hostname = ahl ∨ (allow_subdomains ∧ ('.' :: ahl).isSuffixOf hostname)

/-- `compare_html.compare.validate_url`, lines 95-121: scheme must be `http`
or `https`, and the lowercased `netloc` must end with one of the
`allowed_domains` — a plain suffix test, with no dot boundary. -/
def validate_url (u : ParsedUrl) (allowed_domains : List PyStr) : Bool :=
  if ¬ (u.scheme = "http".toList ∨ u.scheme = "https".toList) then false
  else
    let netloc := pyLower u.netloc
    if ¬ allowed_domains.any (fun domain => (pyLower domain).isSuffixOf netloc) then false
    else true

/-- `compare.normalize_indents` inner loop: each line's indent becomes
`min indent (previous normalized indent + 1)`, where `prev` is the indent
just emitted (`normalized[-1][0]`). -/
def normalizeIndentsAux {α : Type} (prev : Nat) : List (Nat × α) → List (Nat × α)
  | [] => []
  | (indent, text) :: rest =>
      let new_indent := min indent (prev + 1)
      (new_indent, text) :: normalizeIndentsAux new_indent rest

/-- `compare.normalize_indents`, lines 270-285: the first line is forced to
indent 0; every later line is clamped to at most one more than the previous
normalized indent. -/
def normalize_indents {α : Type} : List (Nat × α) → List (Nat × α)
  | [] => []
  | (_, text) :: rest => (0, text) :: normalizeIndentsAux 0 rest

/-!
Embedding of `difflib.SequenceMatcher` as `get_comparison_data` instantiates
it: `isjunk=None` and `autojunk=False`, so the junk sets `bjunk` and
`bpopular` are empty, `b2j` maps every element of `b` to the full ascending
list of its positions, and the junk-extension loops of `find_longest_match`
are no-ops.
-/

/-- `SequenceMatcher.__chain_b`: `b2j[x]` is the ascending list of positions
of `x` in `b` (no junk or popular elements are removed). -/
def b2j {α : Type} [DecidableEq α] (b : List α) (x : α) : List Nat :=
  (List.range b.length).filter fun j => b.get? j = some x

/-- The `(besti, bestj, bestsize)` triple threaded through
`find_longest_match`. -/
structure FlmBest where
  besti : Nat
  bestj : Nat
  bestsize : Nat
deriving DecidableEq

/-- The candidate length `k` computed at column `j`:
`j2len.get(j-1, 0) + 1` on the previous row's dictionary.  Python indexes the
dictionary with `j - 1 = -1` when `j = 0`, which always misses; the `j = 0`
case is therefore written explicitly (plain `j - 1` would wrongly read key `0`
under truncated subtraction). -/
def kOf (old : Nat → Nat) (j : Nat) : Nat :=
  (if j = 0 then 0 else old (j - 1)) + 1

/-- Inner loop of `find_longest_match` over `b2j[a[i]]`: `old` is the previous
row's `j2len` (a dictionary defaulting to 0, embedded as a total function),
`new` the row being built, `best` the running best match.  Python `continue`s
on `j < blo` and `break`s on `j >= bhi`; since the `j` list is ascending the
`break` skips exactly the out-of-window entries, so both are embedded as a
guard. -/
def flmInner (i blo bhi : Nat) (old : Nat → Nat) :
    List Nat → (Nat → Nat) → FlmBest → ((Nat → Nat) × FlmBest)
  | [], new, best => (new, best)
  | j :: js, new, best =>
      if blo ≤ j ∧ j < bhi then
        let k := kOf old j
        let new' : Nat → Nat := fun x => if x = j then k else new x
        let best' : FlmBest :=
          if best.bestsize < k then ⟨i + 1 - k, j + 1 - k, k⟩ else best
        flmInner i blo bhi old js new' best'
      else
        flmInner i blo bhi old js new best

/-- Outer loop of `find_longest_match` over `i in range(alo, ahi)`.  Rows are
passed as an explicit list so the loop is structural; `a.get? i` is always
`some` on the rows actually supplied (`b2j.get(a[i], nothing)` returns `[]`
for a missing key, matching the `none` arm). -/
def flmOuter {α : Type} [DecidableEq α] (a b : List α) (blo bhi : Nat) :
    List Nat → (Nat → Nat) → FlmBest → FlmBest
  | [], _, best => best
  | i :: is, j2len, best =>
      let js := match a.get? i with
        | some x => b2j b x
        | none => []
      let step := flmInner i blo bhi j2len js (fun _ => 0) best
      flmOuter a b blo bhi is step.1 step.2

/-- `a[i] == b[j]` with both indices in range.  Out-of-range reads return
`false`; under the loop guards of `find_longest_match` the indices are always
in range, so this coincides with Python. -/
def idxEq {α : Type} [DecidableEq α] (a b : List α) (i j : Nat) : Bool :=
  match a.get? i, b.get? j with
  | some x, some y => decide (x = y)
  | _, _ => false

/-- First extension loop of `find_longest_match`: grow the match backwards
while the preceding elements agree (with `bjunk` empty, the non-junk test is
vacuous). -/
def extendBack {α : Type} [DecidableEq α] (a b : List α) (alo blo : Nat)
    (best : FlmBest) : FlmBest :=
  if h : alo < best.besti ∧ blo < best.bestj ∧
      idxEq a b (best.besti - 1) (best.bestj - 1) = true then
    extendBack a b alo blo ⟨best.besti - 1, best.bestj - 1, best.bestsize + 1⟩
  else best
termination_by best.besti
decreasing_by simp_wf; omega

/-- Second extension loop of `find_longest_match`: grow the match forwards
while the following elements agree. -/
def extendFwd {α : Type} [DecidableEq α] (a b : List α) (ahi bhi : Nat)
    (best : FlmBest) : FlmBest :=
  if h : best.besti + best.bestsize < ahi ∧ best.bestj + best.bestsize < bhi ∧
      idxEq a b (best.besti + best.bestsize) (best.bestj + best.bestsize) = true then
    extendFwd a b ahi bhi ⟨best.besti, best.bestj, best.bestsize + 1⟩
  else best
termination_by ahi - (best.besti + best.bestsize)
decreasing_by simp_wf; omega

/-- `SequenceMatcher.find_longest_match(alo, ahi, blo, bhi)` with empty junk:
the dynamic-programming main loop followed by the two (non-junk) extension
loops; the two junk-extension loops are identically no-ops because `bjunk` is
empty. -/
def find_longest_match {α : Type} [DecidableEq α] (a b : List α)
    (alo ahi blo bhi : Nat) : FlmBest :=
  let best := flmOuter a b blo bhi (List.range' alo (ahi - alo)) (fun _ => 0) ⟨alo, blo, 0⟩
  extendFwd a b ahi bhi (extendBack a b alo blo best)

/-- The recursive core of `SequenceMatcher.get_matching_blocks`.  Python keeps
a LIFO queue of unexplored windows and sorts the collected matches afterwards;
since the windows to the left and right of a match are disjoint and ordered,
an in-order recursion produces exactly that sorted list.  `fuel` bounds the
recursion depth; `get_matching_blocks` supplies more than enough. -/
def collectBlocks {α : Type} [DecidableEq α] (a b : List α) :
    Nat → Nat → Nat → Nat → Nat → List (Nat × Nat × Nat)
  | 0, _, _, _, _ => []
  | fuel + 1, alo, ahi, blo, bhi =>
      let m := find_longest_match a b alo ahi blo bhi
      if m.bestsize ≠ 0 then
        (if alo < m.besti ∧ blo < m.bestj then
          collectBlocks a b fuel alo m.besti blo m.bestj
        else []) ++
        [(m.besti, m.bestj, m.bestsize)] ++
        (if m.besti + m.bestsize < ahi ∧ m.bestj + m.bestsize < bhi then
          collectBlocks a b fuel (m.besti + m.bestsize) ahi (m.bestj + m.bestsize) bhi
        else [])
      else []

/-- The second phase of `get_matching_blocks`: collapse adjacent matches.
`(i1, j1, k1)` is the accumulator, initialised to `(0, 0, 0)`; a block is
emitted when a non-adjacent one arrives and the accumulator is nonempty. -/
def mergeAdjacent : Nat → Nat → Nat → List (Nat × Nat × Nat) → List (Nat × Nat × Nat)
  | i1, j1, k1, [] => if k1 ≠ 0 then [(i1, j1, k1)] else []
  | i1, j1, k1, (i2, j2, k2) :: rest =>
      if i1 + k1 = i2 ∧ j1 + k1 = j2 then
        mergeAdjacent i1 j1 (k1 + k2) rest
      else
        (if k1 ≠ 0 then [(i1, j1, k1)] else []) ++ mergeAdjacent i2 j2 k2 rest

/-- `SequenceMatcher.get_matching_blocks`: collect, merge adjacent blocks, and
append the `(la, lb, 0)` sentinel. -/
def get_matching_blocks {α : Type} [DecidableEq α] (a b : List α) :
    List (Nat × Nat × Nat) :=
  let la := a.length
  let lb := b.length
  mergeAdjacent 0 0 0 (collectBlocks a b (la + lb + 1) 0 la 0 lb) ++ [(la, lb, 0)]

/-- The opcode tags of `difflib`. -/
inductive DiffTag where
  | equal
  | delete
  | insert
  | replace
deriving DecidableEq

/-- A `difflib` opcode `(tag, i1, i2, j1, j2)`. -/
structure Opcode where
  tag : DiffTag
  i1 : Nat
  i2 : Nat
  j1 : Nat
  j2 : Nat
deriving DecidableEq

/-- Loop of `SequenceMatcher.get_opcodes` over the matching blocks, carrying
the cursor `(i, j)`. -/
def opcodesLoop : Nat → Nat → List (Nat × Nat × Nat) → List Opcode
  | _, _, [] => []
  | i, j, (ai, bj, size) :: rest =>
      (if i < ai ∧ j < bj then [⟨.replace, i, ai, j, bj⟩]
       else if i < ai then [⟨.delete, i, ai, j, bj⟩]
       else if j < bj then [⟨.insert, i, ai, j, bj⟩]
       else []) ++
      (if size ≠ 0 then [⟨.equal, ai, ai + size, bj, bj + size⟩] else []) ++
      opcodesLoop (ai + size) (bj + size) rest

/-- `SequenceMatcher.get_opcodes`. -/
def get_opcodes {α : Type} [DecidableEq α] (a b : List α) : List Opcode :=
  opcodesLoop 0 0 (get_matching_blocks a b)

/-!
The output formatter of `get_comparison_data` (lines 222-257): each opcode is
expanded into one render instruction per line, referencing original-sequence
indices only.
-/

/-- One entry of `render_instructions`: the dictionaries
`{"type": ..., "line_index_a": ..., "line_index_b": ...}` built by
`get_comparison_data`, with exactly the keys each type carries. -/
inductive RenderInstruction where
  | unchanged (line_index_b : Nat)
  | removed (line_index_a : Nat)
  | added (line_index_b : Nat)
  | replace (line_index_a : Nat) (line_index_b : Nat)
deriving DecidableEq

/-- A Python loop `for k in range(start, start + n): acc.append(f k)`,
appending one instruction at a time as the source does. -/
def pushRange (f : Nat → RenderInstruction) :
    Nat → Nat → List RenderInstruction → List RenderInstruction
  | _, 0, acc => acc
  | start, n + 1, acc => pushRange f (start + 1) n (acc ++ [f start])

/-- The opcode-processing loop of `get_comparison_data` (lines 224-257),
accumulating into `render_instructions`:
`equal` emits `unchanged` per B-line, `delete` emits `removed` per A-line,
`insert` emits `added` per B-line, and `replace` pairs the first
`min(n_removed, n_added)` lines and emits the excess as pure
`removed`/`added`. -/
def processOpcodes : List Opcode → List RenderInstruction → List RenderInstruction
  | [], acc => acc
  | op :: rest, acc =>
      let acc' :=
        match op.tag with
        | .equal => pushRange (fun k => .unchanged (op.j1 + k)) 0 (op.j2 - op.j1) acc
        | .delete => pushRange (fun k => .removed (op.i1 + k)) 0 (op.i2 - op.i1) acc
        | .insert => pushRange (fun k => .added (op.j1 + k)) 0 (op.j2 - op.j1) acc
        | .replace =>
            let n_removed := op.i2 - op.i1
            let n_added := op.j2 - op.j1
            let m := min n_removed n_added
            let acc1 := pushRange (fun k => .replace (op.i1 + k) (op.j1 + k)) 0 m acc
            let acc2 := pushRange (fun k => .removed (op.i1 + k)) m (n_removed - m) acc1
            pushRange (fun k => .added (op.j1 + k)) m (n_added - m) acc2
      processOpcodes rest acc'

/-!
The orchestrator `get_comparison_data` (compare_processor.py lines 91-287).
The two network fetches are inputs of the model: `text_orig_A` and
`text_orig_B` are the strings the two `fetch_and_process_url` calls (or the
generic fallback messages installed when a fetch thread itself raises)
produced.  The wall-clock timestamp field is not modelled.  The
`try/except` around the diff stage is unreachable in the model because every
embedded operation is total.
-/

/-- The processor's result dictionary, minus the timestamp. -/
structure ComparisonResult where
  lines_orig_A : List PyStr
  lines_orig_B : List PyStr
  render_instructions : List RenderInstruction
  is_error : Bool
  error_msg1 : Option PyStr
  error_msg2 : Option PyStr
deriving DecidableEq

/-- Python `text.startswith("Error:")`. -/
def startsWithError (t : PyStr) : Bool := "Error:".toList.isPrefixOf t

/-- `[expected_archive_host.split(":")[0]] if expected_archive_host else []`
(line 123): the hostname part before any port, or no allowed host at all when
the caller host string is empty. -/
def allowed_archive_hosts (expected_archive_host : PyStr) : List PyStr :=
  if expected_archive_host ≠ [] then [expected_archive_host.takeWhile (fun c => c ≠ ':')]
  else []

/-- The error result returned when the archived URL fails validation
(lines 129-136). -/
def archiveValidationError : ComparisonResult :=
  { lines_orig_A := []
    lines_orig_B := []
    render_instructions := []
    is_error := true
    error_msg1 := some "Error: Invalid or disallowed URL for archived content.".toList
    error_msg2 := none }

/-- The error result returned when the live URL fails validation
(lines 141-148). -/
def liveValidationError : ComparisonResult :=
  { lines_orig_A := []
    lines_orig_B := []
    render_instructions := []
    is_error := true
    error_msg1 := none
    error_msg2 := some "Error: Invalid or disallowed URL for live content (must be cdc.gov).".toList }

/-- `compare_processor.get_comparison_data`: validate both URLs, then check
the fetched texts for the `"Error:"` marker; on any error skip diffing and
return empty line lists, otherwise split, normalize, diff with
`SequenceMatcher(isjunk=None, a=..., b=..., autojunk=False)` and expand the
opcodes into render instructions. -/
def get_comparison_data (url_a url_b : ParsedUrl) (expected_archive_host : PyStr)
    (text_orig_A text_orig_B : PyStr) : ComparisonResult :=
  if validate_url_internal url_a ["http".toList, "https".toList]
      (allowed_archive_hosts expected_archive_host) false = false then
    archiveValidationError
  else if validate_url_internal url_b ["https".toList] ["cdc.gov".toList] true = false then
    liveValidationError
  else
    let is_error := startsWithError text_orig_A || startsWithError text_orig_B
    let error_msg1 := if startsWithError text_orig_A then some text_orig_A else none
    let error_msg2 := if startsWithError text_orig_B then some text_orig_B else none
    if is_error then
      { lines_orig_A := []
        lines_orig_B := []
        render_instructions := []
        is_error := is_error
        error_msg1 := error_msg1
        error_msg2 := error_msg2 }
    else
      let lines_orig_A := splitlines text_orig_A
      let lines_orig_B := splitlines text_orig_B
      let lines_norm_A := normalize_whitespace lines_orig_A
      let lines_norm_B := normalize_whitespace lines_orig_B
      let opcodes := get_opcodes lines_norm_A lines_norm_B
      { lines_orig_A := lines_orig_A
        lines_orig_B := lines_orig_B
        render_instructions := processOpcodes opcodes []
        is_error := is_error
        error_msg1 := error_msg1
        error_msg2 := error_msg2 }

/-!
Control flow of `compare_html.compare.generate_comparison` (lines 476-531).
Unlike the processor, it raises `ValueError` when either URL fails
validation; a raised exception is embedded as `Except.error`.  Everything
after validation (fetching, BeautifulSoup extraction, diffing, and the final
table) performs network and browser work, so the produced table is abstracted
as the parameter `rendered_table`; only the validation gate is modelled from
the code. -/
def generate_comparison (restored_url current_url : ParsedUrl)
    (rendered_table : PyStr) : Except PyStr PyStr :=
  if validate_url restored_url ["restoredcdc.org".toList] = false then
    Except.error "Archived URL is not allowed. Must be on restoredcdc.org.".toList
  else if validate_url current_url ["cdc.gov".toList] = false then
    Except.error "Current URL is not allowed. Must be on cdc.gov.".toList
  else
    Except.ok rendered_table

/-!
The failure messages of `compare_utils.fetch_and_process_url`.  The function
returns a string; on failure the string starts with `"Error:"`.  The
exceptions that can reach its handlers are embedded as data carrying exactly
what the handlers inspect: the exception's `str()` text and, for the generic
handlers, the exception's type name.
-/

/-- Python `needle in hay` on strings: `needle` occurs contiguously in
`hay`. -/
def containsSub (needle : PyStr) : PyStr → Bool
  | [] => needle.isPrefixOf []
  | c :: rest => needle.isPrefixOf (c :: rest) || containsSub needle rest

/-- `PLAYWRIGHT_TIMEOUT` (default 20000 ms; the environment override is fixed
to its default in the model). -/
def PLAYWRIGHT_TIMEOUT : Nat := 20000

/-- An exception raised while `page.goto` navigates: Playwright's
`TimeoutError`, a `PlaywrightError` carrying `str(e)`, or any other exception
carrying its type name and `str(e)`. -/
inductive NavException where
  | timeout
  | playwrightError (msg : PyStr)
  | otherError (typeName : PyStr) (msg : PyStr)
deriving DecidableEq

/-- Python `str(e).splitlines()[0]`.  When `str(e)` is empty Python would
raise `IndexError` out of the handler; the model returns the empty string
instead (no claim depends on that corner). -/
def firstLine (msg : PyStr) : PyStr := (splitlines msg).headD []

/-- The navigation-failure messages of `fetch_and_process_url`
(lines 151-170): timeout, DNS failure and connection-refused are fixed
categorized strings; any other `PlaywrightError` appends the first line of
`str(e)`; any other exception appends only the exception type name. -/
def navigationErrorMessage (url : PyStr) (e : NavException) : PyStr :=
  match e with
  | .timeout =>
      "Error: Page load timed out after ".toList ++
        (Nat.repr (PLAYWRIGHT_TIMEOUT / 1000)).toList ++ "s for ".toList ++ url
  | .playwrightError msg =>
      if containsSub "net::ERR_NAME_NOT_RESOLVED".toList msg then
        "Error: Could not resolve hostname for ".toList ++ url
      else if containsSub "net::ERR_CONNECTION_REFUSED".toList msg then
        "Error: Connection refused for ".toList ++ url
      else
        "Error: Browser navigation error for ".toList ++ url ++ ": ".toList ++ firstLine msg
  | .otherError typeName _ =>
      "Error: Unexpected navigation error for ".toList ++ url ++ ": ".toList ++ typeName

/-- The browser-setup failure message (lines 260-267): a `PlaywrightError`
raised outside the navigation block yields a message carrying
`str(e).splitlines()[0]`. -/
def setupErrorMessage (url : PyStr) (msg : PyStr) : PyStr :=
  "Error: Browser automation setup error for ".toList ++ url ++ ": ".toList ++ firstLine msg

/-- The outer catch-all message (lines 268-271): only the exception type name
is included. -/
def unexpectedErrorMessage (url : PyStr) (typeName : PyStr) : PyStr :=
  "Error: Unexpected error processing ".toList ++ url ++ ": ".toList ++ typeName

/-!
The post-fetch pipeline of `compare_html/compare.py` (lines 288-531):
`slice_range`, `tuple_diff`, `flatten_diff_html`, `filter_unwanted`,
`produce_visible_diff` and the body of `generate_comparison`.  `tuple_diff`
configures its `SequenceMatcher` differently from the processor:
`isjunk=lambda x: x in " \t"` (a line is junk when it is a substring of
`" \t"`, i.e. one of `""`, `" "`, `"\t"`, `" \t"`) and `autojunk` left at its
default `True`, so the matcher below carries the full junk machinery: junk
keys are dropped from `b2j`, popular elements are dropped when `len(b) >=
200`, and all four extension loops of `find_longest_match` are active.
-/

/-- The junk test `lambda x: x in " \t"` passed by `tuple_diff` (line 336):
Python `in` on strings is substring containment. -/
def isjunkSpaceTab (x : PyStr) : Bool := containsSub x " \t".toList

/-- `SequenceMatcher.__chain_b` with a junk test and `autojunk`: junk keys
are deleted from `b2j` (into `bjunk`), and when `autojunk` is set and
`len(b) >= 200`, elements occurring more than `len(b) // 100 + 1` times are
deleted as popular. -/
def b2j_junk {α : Type} [DecidableEq α] (isjunk : α → Bool) (autojunk : Bool)
    (b : List α) (x : α) : List Nat :=
  if isjunk x then []
  else
    let idxs := (List.range b.length).filter fun j => b.get? j = some x
    if autojunk && decide (200 ≤ b.length) && decide (b.length / 100 + 1 < idxs.length) then
      []
    else idxs

/-- `isbjunk(b[j])`: the element at position `j` of `b` is junk (every
element of `b` is in the matcher's `b` by construction, so membership in the
`bjunk` set reduces to the junk test). -/
def bjunkAt {α : Type} (isjunk : α → Bool) (b : List α) (j : Nat) : Bool :=
  match b.get? j with
  | some y => isjunk y
  | none => false

/-- Outer loop of the junk-configured `find_longest_match`: as `flmOuter`,
but rows index into the junk-filtered `b2j`. -/
def flmOuterJ {α : Type} [DecidableEq α] (isjunk : α → Bool) (autojunk : Bool)
    (a b : List α) (blo bhi : Nat) :
    List Nat → (Nat → Nat) → FlmBest → FlmBest
  | [], _, best => best
  | i :: is, j2len, best =>
      let js := match a.get? i with
        | some x => b2j_junk isjunk autojunk b x
        | none => []
      let step := flmInner i blo bhi j2len js (fun _ => 0) best
      flmOuterJ isjunk autojunk a b blo bhi is step.1 step.2

/-- First extension loop of the junk-configured `find_longest_match`: extend
backwards over non-junk equal elements.  The loop decrements `besti` each
iteration, so it runs at most `besti` times; it is embedded structurally on a
fuel that `find_longest_match_junk` supplies in excess, which also lets the
kernel evaluate it on concrete inputs. -/
def extendBackNonJunk {α : Type} [DecidableEq α] (isjunk : α → Bool)
    (a b : List α) (alo blo : Nat) : Nat → FlmBest → FlmBest
  | 0, best => best
  | fuel + 1, best =>
      if alo < best.besti ∧ blo < best.bestj ∧
          bjunkAt isjunk b (best.bestj - 1) = false ∧
          idxEq a b (best.besti - 1) (best.bestj - 1) = true then
        extendBackNonJunk isjunk a b alo blo fuel
          ⟨best.besti - 1, best.bestj - 1, best.bestsize + 1⟩
      else best

/-- Second extension loop: extend forwards over non-junk equal elements (the
loop grows `bestsize` while `besti + bestsize < ahi`, so it runs at most
`ahi` times). -/
def extendFwdNonJunk {α : Type} [DecidableEq α] (isjunk : α → Bool)
    (a b : List α) (ahi bhi : Nat) : Nat → FlmBest → FlmBest
  | 0, best => best
  | fuel + 1, best =>
      if best.besti + best.bestsize < ahi ∧ best.bestj + best.bestsize < bhi ∧
          bjunkAt isjunk b (best.bestj + best.bestsize) = false ∧
          idxEq a b (best.besti + best.bestsize) (best.bestj + best.bestsize) = true then
        extendFwdNonJunk isjunk a b ahi bhi fuel
          ⟨best.besti, best.bestj, best.bestsize + 1⟩
      else best

/-- Third extension loop: extend backwards over junk equal elements. -/
def extendBackJunk {α : Type} [DecidableEq α] (isjunk : α → Bool)
    (a b : List α) (alo blo : Nat) : Nat → FlmBest → FlmBest
  | 0, best => best
  | fuel + 1, best =>
      if alo < best.besti ∧ blo < best.bestj ∧
          bjunkAt isjunk b (best.bestj - 1) = true ∧
          idxEq a b (best.besti - 1) (best.bestj - 1) = true then
        extendBackJunk isjunk a b alo blo fuel
          ⟨best.besti - 1, best.bestj - 1, best.bestsize + 1⟩
      else best

/-- Fourth extension loop: extend forwards over junk equal elements. -/
def extendFwdJunk {α : Type} [DecidableEq α] (isjunk : α → Bool)
    (a b : List α) (ahi bhi : Nat) : Nat → FlmBest → FlmBest
  | 0, best => best
  | fuel + 1, best =>
      if best.besti + best.bestsize < ahi ∧ best.bestj + best.bestsize < bhi ∧
          bjunkAt isjunk b (best.bestj + best.bestsize) = true ∧
          idxEq a b (best.besti + best.bestsize) (best.bestj + best.bestsize) = true then
        extendFwdJunk isjunk a b ahi bhi fuel
          ⟨best.besti, best.bestj, best.bestsize + 1⟩
      else best

/-- `SequenceMatcher.find_longest_match` with a junk test: the main dynamic
programming loop over the junk-filtered `b2j`, then the four extension loops
in source order (backwards/forwards over non-junk, then backwards/forwards
over junk).  Each loop gets fuel `ahi + bhi + 1`, an over-approximation of
its iteration count (backward loops decrement `besti ≤ ahi`, forward loops
stop once `besti + bestsize` reaches `ahi`). -/
def find_longest_match_junk {α : Type} [DecidableEq α] (isjunk : α → Bool)
    (autojunk : Bool) (a b : List α) (alo ahi blo bhi : Nat) : FlmBest :=
  let fuel := ahi + bhi + 1
  let best := flmOuterJ isjunk autojunk a b blo bhi (List.range' alo (ahi - alo))
    (fun _ => 0) ⟨alo, blo, 0⟩
  extendFwdJunk isjunk a b ahi bhi fuel
    (extendBackJunk isjunk a b alo blo fuel
      (extendFwdNonJunk isjunk a b ahi bhi fuel
        (extendBackNonJunk isjunk a b alo blo fuel best)))

/-- `get_matching_blocks` recursion for the junk-configured matcher (same
structure as `collectBlocks`). -/
def collectBlocksJ {α : Type} [DecidableEq α] (isjunk : α → Bool) (autojunk : Bool)
    (a b : List α) : Nat → Nat → Nat → Nat → Nat → List (Nat × Nat × Nat)
  | 0, _, _, _, _ => []
  | fuel + 1, alo, ahi, blo, bhi =>
      let m := find_longest_match_junk isjunk autojunk a b alo ahi blo bhi
      if m.bestsize ≠ 0 then
        (if alo < m.besti ∧ blo < m.bestj then
          collectBlocksJ isjunk autojunk a b fuel alo m.besti blo m.bestj
        else []) ++
        [(m.besti, m.bestj, m.bestsize)] ++
        (if m.besti + m.bestsize < ahi ∧ m.bestj + m.bestsize < bhi then
          collectBlocksJ isjunk autojunk a b fuel (m.besti + m.bestsize) ahi
            (m.bestj + m.bestsize) bhi
        else [])
      else []

/-- `SequenceMatcher.get_matching_blocks` for the junk-configured matcher. -/
def get_matching_blocks_junk {α : Type} [DecidableEq α] (isjunk : α → Bool)
    (autojunk : Bool) (a b : List α) : List (Nat × Nat × Nat) :=
  let la := a.length
  let lb := b.length
  mergeAdjacent 0 0 0 (collectBlocksJ isjunk autojunk a b (la + lb + 1) 0 la 0 lb) ++
    [(la, lb, 0)]

/-- `SequenceMatcher.get_opcodes` for the junk-configured matcher (the opcode
loop itself does not consult junk). -/
def get_opcodes_junk {α : Type} [DecidableEq α] (isjunk : α → Bool)
    (autojunk : Bool) (a b : List α) : List Opcode :=
  opcodesLoop 0 0 (get_matching_blocks_junk isjunk autojunk a b)

/-- The CSS style constants of compare.py (lines 46-47). -/
def REMOVED_STYLE : PyStr := "background-color: #fadad7; color: #b30000;".toList

/-- See `REMOVED_STYLE`. -/
def ADDED_STYLE : PyStr := "background-color: #eaf2c2; color: #406619;".toList

/-- The f-string `<span style="{style}">{text}</span>` used by `tuple_diff`
when `html_colour` is set. -/
def spanWrap (style text : PyStr) : PyStr :=
  "<span style=\"".toList ++ style ++ "\">".toList ++ text ++ "</span>".toList

/-- `compare.slice_range` (lines 288-301): `lst[start:end]`, except that when
`start == end` the single element `lst[start]` is returned.  Python raises
`IndexError` on an out-of-range `lst[start]`; `tuple_diff` only ever calls
this with nonempty in-range slices, and the model returns the `Inhabited`
default there instead. -/
def slice_range {α : Type} [Inhabited α] (lst : List α) (start stop : Nat) : List α :=
  if start ≠ stop then (lst.drop start).take (stop - start) else [lst.getD start default]

/-- The per-opcode body of `compare.tuple_diff` (lines 338-391), yielding one
group of `(indent, text)` tuples per included opcode: the `if/elif` chain
tests `include_equal`/`include_removed`/`include_replaced`/`include_added`
together with the tag, wraps changed text in styled spans when `html_colour`
is set, prefixes change markers when `include_change_type_prefix` is set, and
yields nothing for an opcode whose include flag is off. -/
def tupleDiffLoop (before after : List (Nat × PyStr))
    (include_equal include_removed include_added include_replaced
      include_change_type_prefix html_colour : Bool) :
    List Opcode → List (List (Nat × PyStr))
  | [] => []
  | op :: rest =>
      (if include_equal ∧ op.tag = .equal then
        [(before.drop op.i1).take (op.i2 - op.i1)]
      else if include_removed ∧ op.tag = .delete then
        (if html_colour then
          [(slice_range before op.i1 op.i2).map fun t => (t.1, spanWrap REMOVED_STYLE t.2)]
        else if include_change_type_prefix then
          [(slice_range before op.i1 op.i2).map fun t => (t.1, "(removed) ".toList ++ t.2)]
        else [slice_range before op.i1 op.i2])
      else if include_replaced ∧ op.tag = .replace then
        (if html_colour then
          [(slice_range before op.i1 op.i2).map (fun t => (t.1, spanWrap REMOVED_STYLE t.2)) ++
            (slice_range after op.j1 op.j2).map (fun t => (t.1, spanWrap ADDED_STYLE t.2))]
        else if include_change_type_prefix then
          [(slice_range before op.i1 op.i2).map (fun t => (t.1, "(changed) ".toList ++ t.2)) ++
            (slice_range after op.j1 op.j2).map (fun t => (t.1, "(into) ".toList ++ t.2))]
        else [slice_range before op.i1 op.i2 ++ slice_range after op.j1 op.j2])
      else if include_added ∧ op.tag = .insert then
        (if html_colour then
          [(slice_range after op.j1 op.j2).map fun t => (t.1, spanWrap ADDED_STYLE t.2)]
        else if include_change_type_prefix then
          [(slice_range after op.j1 op.j2).map fun t => (t.1, "(added) ".toList ++ t.2)]
        else [slice_range after op.j1 op.j2])
      else []) ++
      tupleDiffLoop before after include_equal include_removed include_added
        include_replaced include_change_type_prefix html_colour rest

/-- `compare.tuple_diff` (lines 304-391): compare two tuple sequences on
their text fields with `SequenceMatcher(isjunk=lambda x: x in " \t", ...)`
(`autojunk` left at its default `True`) and yield the groups of the loop
body. -/
def tuple_diff (before after : List (Nat × PyStr))
    (include_equal include_removed include_added include_replaced
      include_change_type_prefix html_colour : Bool) :
    List (List (Nat × PyStr)) :=
  let before_text := before.map Prod.snd
  let after_text := after.map Prod.snd
  tupleDiffLoop before after include_equal include_removed include_added
    include_replaced include_change_type_prefix html_colour
    (get_opcodes_junk isjunkSpaceTab true before_text after_text)

/-- The f-string
`<div style="margin-left: {indent * 10}px; margin-bottom: 0;">{text}</div>`
of `flatten_diff_html`. -/
def divWrap (indent : Nat) (text : PyStr) : PyStr :=
  "<div style=\"margin-left: ".toList ++ (Nat.repr (indent * 10)).toList ++
    "px; margin-bottom: 0;\">".toList ++ text ++ "</div>".toList

/-- `compare.flatten_diff_html` (lines 394-420) on a flat list of tuples, as
called for the hidden cells.  Both call sites pass `sep=""`, so the join is
plain concatenation. -/
def flatten_diff_html_tuples (l : List (Nat × PyStr)) : PyStr :=
  (l.map fun t => divWrap t.1 t.2).flatten

/-- `compare.flatten_diff_html` on a list of tuple groups, as called on the
output of `tuple_diff`: the recursive `_flatten` walks every group in order
and emits one `div` per tuple. -/
def flatten_diff_html_groups (groups : List (List (Nat × PyStr))) : PyStr :=
  (groups.map flatten_diff_html_tuples).flatten

/-- `compare.filter_unwanted` (lines 423-434): drop tuples whose text
contains one of the injected-marker substrings. -/
def filter_unwanted (tuples : List (Nat × PyStr)) : List (Nat × PyStr) :=
  tuples.filter fun t =>
    ¬ (["CDC_POST=".toList, "CDC_PRE=".toList, "WB$wombat".toList,
        "CDC.ABTest".toList, "CDC_AAref_Val".toList].any
      fun s => containsSub s t.2)

/-- `compare.produce_visible_diff` (lines 437-473): extract, normalize and
filter both documents, diff with `include_equal=True`,
`include_change_type_prefix=False`, `html_colour=True`, and flatten.  The
tree-walking extractor `extract_text_with_indent` runs on the external
lxml/BeautifulSoup parse, so it is a parameter here. -/
def produce_visible_diff (extract : PyStr → List (Nat × PyStr))
    (before_html after_html : PyStr) : PyStr :=
  let before_tuples := filter_unwanted (normalize_indents (extract before_html))
  let after_tuples := filter_unwanted (normalize_indents (extract after_html))
  flatten_diff_html_groups
    (tuple_diff before_tuples after_tuples true true true true false true)

/-- The result table of `generate_comparison` (lines 519-531). -/
def comparison_table (archived_text_html current_text_html diff_html : PyStr) : PyStr :=
  "\n<table>\n  <tbody>\n    <tr>\n      <td id=\"a\" style=\"display: none;\">".toList ++
    archived_text_html ++
    "</td>\n      <td id=\"b\" style=\"display: none;\">".toList ++
    current_text_html ++
    "</td>\n      <td id=\"diff-col\">\n        <span id=\"result\" class=\"highlightable-filter\">".toList ++
    diff_html ++
    "</span>\n      </td>\n    </tr>\n  </tbody>\n</table>\n".toList

/-- The full body of `compare.generate_comparison` (lines 476-531), refining
the validation-gate model `generate_comparison` above: after the two
validation gates (which raise `ValueError`, embedded as `Except.error`), the
fetched documents — `fetch_html` results, which are the empty string when a
fetch fails — are extracted, flattened into the two hidden cells, diffed by
`produce_visible_diff`, and wrapped into the table.  There is no branch
between fetching and diffing: a failed (empty) fetch result flows straight
into the diff engine. -/
def generate_comparison_full (extract : PyStr → List (Nat × PyStr))
    (restored_url current_url : ParsedUrl)
    (archived_html current_html : PyStr) : Except PyStr PyStr :=
  if validate_url restored_url ["restoredcdc.org".toList] = false then
    Except.error "Archived URL is not allowed. Must be on restoredcdc.org.".toList
  else if validate_url current_url ["cdc.gov".toList] = false then
    Except.error "Current URL is not allowed. Must be on cdc.gov.".toList
  else
    let archived_text_html := flatten_diff_html_tuples (normalize_indents (extract archived_html))
    let current_text_html := flatten_diff_html_tuples (normalize_indents (extract current_html))
    let diff_html := produce_visible_diff extract archived_html current_html
    Except.ok (comparison_table archived_text_html current_text_html diff_html)

/-- Modelled from the spec: the hierarchy-aware Text Extractor
(`extract_text_with_indent`, whose tree walk runs on the external
lxml/BeautifulSoup parse that is not part of this repository) at the two
documents of the C2 counterexample.  Per the spec's extraction rules, the
empty document — the value `fetch_html` returns when a fetch fails — yields
no text units, and a document whose body holds one paragraph block with the
inline text `Welcome` yields the single unit `(1, "Welcome")` (the walk
enters one block level below the body). -/
def extract_example : PyStr → List (Nat × PyStr) := fun html =>
  if html = [] then []
  else if html = "<p>Welcome</p>".toList then [(1, "Welcome".toList)]
  else []

/-!
Auxiliary predicates used by the claim statements.
-/

/-- Each indent in the list is at most one more than its predecessor, with
`prev` the indent preceding the list. -/
def chainOk {α : Type} : Nat → List (Nat × α) → Bool
  | _, [] => true
  | prev, (d, _) :: rest => decide (d ≤ prev + 1) && chainOk d rest

/-- A sequence of `(indent, text)` pairs is depth-normalized: the first indent
is 0 and no indent exceeds its predecessor by more than 1. -/
def depthNormalized {α : Type} : List (Nat × α) → Bool
  | [] => true
  | (d, _) :: rest => decide (d = 0) && chainOk d rest

/-- A render instruction references only indices inside the two original
line lists (of lengths `la` and `lb`). -/
def instrInBounds (la lb : Nat) : RenderInstruction → Bool
  | .unchanged line_index_b => decide (line_index_b < lb)
  | .removed line_index_a => decide (line_index_a < la)
  | .added line_index_b => decide (line_index_b < lb)
  | .replace line_index_a line_index_b => decide (line_index_a < la) && decide (line_index_b < lb)

/-!
Helper lemmas.
-/

theorem chainOk_normalizeIndentsAux {α : Type} (l : List (Nat × α)) :
    ∀ prev, chainOk prev (normalizeIndentsAux prev l) = true := by
  induction l with
  | nil => intro prev; rfl
  | cons hd tl ih =>
      intro prev
      obtain ⟨d, t⟩ := hd
      simp only [normalizeIndentsAux, chainOk, Bool.and_eq_true, decide_eq_true_eq]
      exact ⟨by omega, ih _⟩

theorem validate_url_internal_no_hosts (u : ParsedUrl) (schemes : List PyStr)
    (subs : Bool) : validate_url_internal u schemes [] subs = false := by
  unfold validate_url_internal
  split_ifs <;> simp [List.any]

theorem pushRange_eq (f : Nat → RenderInstruction) :
    ∀ (n start : Nat) (acc : List RenderInstruction),
      pushRange f start n acc = acc ++ (List.range' start n).map f := by
  intro n
  induction n with
  | zero => intro start acc; simp [pushRange]
  | succ m ih =>
      intro start acc
      rw [pushRange, ih]
      simp [List.range'_succ]

/-- The best-match triple stays inside the window `[alo, ahi) × [blo, bhi)`. -/
def BestWF (alo ahi blo bhi : Nat) (best : FlmBest) : Prop :=
  alo ≤ best.besti ∧ blo ≤ best.bestj ∧
  best.besti + best.bestsize ≤ ahi ∧ best.bestj + best.bestsize ≤ bhi

theorem flmInner_inv (i alo ahi blo bhi : Nat) (old : Nat → Nat)
    (hold : ∀ x, old x ≤ min (x + 1 - blo) (i - alo))
    (hial : alo ≤ i) (hia : i < ahi) :
    ∀ (js : List Nat) (new : Nat → Nat) (best : FlmBest),
      (∀ x, new x ≤ min (x + 1 - blo) (i + 1 - alo)) →
      BestWF alo ahi blo bhi best →
      (∀ x, (flmInner i blo bhi old js new best).1 x ≤ min (x + 1 - blo) (i + 1 - alo)) ∧
      BestWF alo ahi blo bhi (flmInner i blo bhi old js new best).2 := by
  intro js
  induction js with
  | nil => intro new best hnew hbest; exact ⟨hnew, hbest⟩
  | cons j js ih =>
      intro new best hnew hbest
      by_cases hg : blo ≤ j ∧ j < bhi
      · have hk1 : kOf old j ≤ j + 1 - blo := by
          unfold kOf
          by_cases h0 : j = 0
          · subst h0; simp; omega
          · simp only [h0, if_false]
            have := hold (j - 1)
            omega
        have hk2 : kOf old j ≤ i + 1 - alo := by
          unfold kOf
          by_cases h0 : j = 0
          · simp only [h0, if_true]; omega
          · simp only [h0, if_false]
            have := hold (j - 1)
            omega
        rw [flmInner, if_pos hg]
        apply ih
        · intro x
          by_cases hx : x = j
          · subst hx
            simp only [if_pos rfl]
            exact le_min hk1 hk2
          · simp only [if_neg hx]
            exact hnew x
        · obtain ⟨hb1, hb2, hb3, hb4⟩ := hbest
          by_cases hlt : best.bestsize < kOf old j
          · simp only [if_pos hlt]
            refine ⟨?_, ?_, ?_, ?_⟩ <;> simp only [] <;> omega
          · simp only [if_neg hlt]
            exact ⟨hb1, hb2, hb3, hb4⟩
      · rw [flmInner, if_neg hg]
        exact ih new best hnew hbest

theorem flmOuter_inv {α : Type} [DecidableEq α] (a b : List α)
    (alo ahi blo bhi : Nat) :
    ∀ (cnt start : Nat) (j2len : Nat → Nat) (best : FlmBest),
      alo ≤ start → start + cnt ≤ ahi →
      (∀ x, j2len x ≤ min (x + 1 - blo) (start - alo)) →
      BestWF alo ahi blo bhi best →
      BestWF alo ahi blo bhi (flmOuter a b blo bhi (List.range' start cnt) j2len best) := by
  intro cnt
  induction cnt with
  | zero =>
      intro start f best _ _ _ hbest
      simpa [flmOuter] using hbest
  | succ m ih =>
      intro start f best hal hcnt hf hbest
      rw [List.range'_succ, flmOuter]
      have h := flmInner_inv start alo ahi blo bhi f hf hal (by omega)
        (match a.get? start with
          | some x => b2j b x
          | none => [])
        (fun _ => 0) best (fun x => by positivity) hbest
      exact ih (start + 1) _ _ (by omega) (by omega) h.1 h.2

theorem extendBack_wf {α : Type} [DecidableEq α] (a b : List α)
    (alo blo ahi bhi : Nat) :
    ∀ (n : Nat) (best : FlmBest), best.besti ≤ n →
      BestWF alo ahi blo bhi best →
      BestWF alo ahi blo bhi (extendBack a b alo blo best) := by
  intro n
  induction n with
  | zero =>
      intro best hle hwf
      rw [extendBack]
      split
      · next h => omega
      · exact hwf
  | succ m ih =>
      intro best hle hwf
      rw [extendBack]
      split
      · next h =>
          obtain ⟨hw1, hw2, hw3, hw4⟩ := hwf
          exact ih _ (by simp only []; omega)
            ⟨by simp only []; omega, by simp only []; omega,
             by simp only []; omega, by simp only []; omega⟩
      · exact hwf

theorem extendFwd_wf {α : Type} [DecidableEq α] (a b : List α)
    (alo blo ahi bhi : Nat) :
    ∀ (n : Nat) (best : FlmBest), ahi - (best.besti + best.bestsize) ≤ n →
      BestWF alo ahi blo bhi best →
      BestWF alo ahi blo bhi (extendFwd a b ahi bhi best) := by
  intro n
  induction n with
  | zero =>
      intro best hle hwf
      rw [extendFwd]
      split
      · next h => omega
      · exact hwf
  | succ m ih =>
      intro best hle hwf
      rw [extendFwd]
      split
      · next h =>
          obtain ⟨hw1, hw2, hw3, hw4⟩ := hwf
          exact ih _ (by simp only []; omega)
            ⟨by simp only []; omega, by simp only []; omega,
             by simp only []; omega, by simp only []; omega⟩
      · exact hwf

theorem find_longest_match_wf {α : Type} [DecidableEq α] (a b : List α)
    (alo ahi blo bhi : Nat) (h1 : alo ≤ ahi) (h2 : blo ≤ bhi) :
    BestWF alo ahi blo bhi (find_longest_match a b alo ahi blo bhi) := by
  unfold find_longest_match
  apply extendFwd_wf a b alo blo ahi bhi _ _ (le_refl _)
  apply extendBack_wf a b alo blo ahi bhi _ _ (le_refl _)
  apply flmOuter_inv a b alo ahi blo bhi (ahi - alo) alo (fun _ => 0) ⟨alo, blo, 0⟩
    (le_refl _) (by omega) (fun x => by positivity)
  exact ⟨le_refl _, le_refl _, by show alo + 0 ≤ ahi; omega, by show blo + 0 ≤ bhi; omega⟩

theorem collectBlocks_bounds {α : Type} [DecidableEq α] (a b : List α) :
    ∀ (fuel alo ahi blo bhi : Nat), alo ≤ ahi → blo ≤ bhi →
      ∀ blk ∈ collectBlocks a b fuel alo ahi blo bhi,
        alo ≤ blk.1 ∧ blk.1 + blk.2.2 ≤ ahi ∧ blo ≤ blk.2.1 ∧ blk.2.1 + blk.2.2 ≤ bhi := by
  intro fuel
  induction fuel with
  | zero => intro alo ahi blo bhi _ _ blk hmem; simp [collectBlocks] at hmem
  | succ m ih =>
      intro alo ahi blo bhi h1 h2 blk hmem
      rw [collectBlocks] at hmem
      have hwf := find_longest_match_wf a b alo ahi blo bhi h1 h2
      obtain ⟨hw1, hw2, hw3, hw4⟩ := hwf
      split at hmem
      · simp only [List.append_assoc, List.mem_append, List.mem_singleton] at hmem
        rcases hmem with hmem | hmem | hmem
        · split at hmem
          · next hguard =>
              have := ih alo _ blo _ (by omega) (by omega) blk hmem
              refine ⟨by omega, by omega, by omega, by omega⟩
          · simp at hmem
        · subst hmem
          exact ⟨hw1, hw3, hw2, hw4⟩
        · split at hmem
          · next hguard =>
              have := ih _ ahi _ bhi (by omega) (by omega) blk hmem
              refine ⟨by omega, by omega, by omega, by omega⟩
          · simp at hmem
      · simp at hmem

theorem mergeAdjacent_bounds (la lb : Nat) :
    ∀ (blocks : List (Nat × Nat × Nat)) (i1 j1 k1 : Nat),
      i1 + k1 ≤ la → j1 + k1 ≤ lb →
      (∀ blk ∈ blocks, blk.1 + blk.2.2 ≤ la ∧ blk.2.1 + blk.2.2 ≤ lb) →
      ∀ blk ∈ mergeAdjacent i1 j1 k1 blocks,
        blk.1 + blk.2.2 ≤ la ∧ blk.2.1 + blk.2.2 ≤ lb := by
  intro blocks
  induction blocks with
  | nil =>
      intro i1 j1 k1 h1 h2 _ blk hmem
      rw [mergeAdjacent] at hmem
      split at hmem
      · simp only [List.mem_singleton] at hmem
        subst hmem
        exact ⟨h1, h2⟩
      · simp at hmem
  | cons hd tl ih =>
      intro i1 j1 k1 h1 h2 hblocks blk hmem
      obtain ⟨i2, j2, k2⟩ := hd
      have hhd := hblocks (i2, j2, k2) (List.mem_cons_self _ _)
      have htl : ∀ b ∈ tl, b.1 + b.2.2 ≤ la ∧ b.2.1 + b.2.2 ≤ lb :=
        fun b hb => hblocks b (List.mem_cons_of_mem _ hb)
      rw [mergeAdjacent] at hmem
      split at hmem
      · next hadj =>
          exact ih i1 j1 (k1 + k2) (by simp at hhd; omega) (by simp at hhd; omega)
            htl blk hmem
      · simp only [List.mem_append] at hmem
        rcases hmem with hmem | hmem
        · split at hmem
          · simp only [List.mem_singleton] at hmem
            subst hmem
            exact ⟨h1, h2⟩
          · simp at hmem
        · exact ih i2 j2 k2 (by simp at hhd; omega) (by simp at hhd; omega) htl blk hmem

theorem get_matching_blocks_bounds {α : Type} [DecidableEq α] (a b : List α) :
    ∀ blk ∈ get_matching_blocks a b,
      blk.1 + blk.2.2 ≤ a.length ∧ blk.2.1 + blk.2.2 ≤ b.length := by
  intro blk hmem
  unfold get_matching_blocks at hmem
  simp only [List.mem_append, List.mem_singleton] at hmem
  rcases hmem with hmem | hmem
  · refine mergeAdjacent_bounds a.length b.length _ 0 0 0 (by omega) (by omega)
      ?_ blk hmem
    intro blk' hmem'
    have := collectBlocks_bounds a b _ 0 a.length 0 b.length (by omega) (by omega)
      blk' hmem'
    exact ⟨this.2.1, this.2.2.2⟩
  · subst hmem
    simp

theorem opcodesLoop_bounds (la lb : Nat) :
    ∀ (blocks : List (Nat × Nat × Nat)) (i j : Nat),
      (∀ blk ∈ blocks, blk.1 + blk.2.2 ≤ la ∧ blk.2.1 + blk.2.2 ≤ lb) →
      ∀ op ∈ opcodesLoop i j blocks, op.i2 ≤ la ∧ op.j2 ≤ lb := by
  intro blocks
  induction blocks with
  | nil => intro i j _ op hmem; simp [opcodesLoop] at hmem
  | cons hd tl ih =>
      intro i j hblocks op hmem
      obtain ⟨ai, bj, size⟩ := hd
      have hhd := hblocks (ai, bj, size) (List.mem_cons_self _ _)
      simp only at hhd
      have htl : ∀ b ∈ tl, b.1 + b.2.2 ≤ la ∧ b.2.1 + b.2.2 ≤ lb :=
        fun b hb => hblocks b (List.mem_cons_of_mem _ hb)
      obtain ⟨hhd1, hhd2⟩ := hhd
      rw [opcodesLoop] at hmem
      simp only [List.append_assoc, List.mem_append] at hmem
      rcases hmem with hmem | hmem | hmem
      · split at hmem
        · simp only [List.mem_singleton] at hmem
          subst hmem
          exact ⟨show ai ≤ la by omega, show bj ≤ lb by omega⟩
        · split at hmem
          · simp only [List.mem_singleton] at hmem
            subst hmem
            exact ⟨show ai ≤ la by omega, show bj ≤ lb by omega⟩
          · split at hmem
            · simp only [List.mem_singleton] at hmem
              subst hmem
              exact ⟨show ai ≤ la by omega, show bj ≤ lb by omega⟩
            · simp at hmem
      · split at hmem
        · simp only [List.mem_singleton] at hmem
          subst hmem
          exact ⟨show ai + size ≤ la by omega, show bj + size ≤ lb by omega⟩
        · simp at hmem
      · exact ih (ai + size) (bj + size) htl op hmem

theorem mem_pushRange (f : Nat → RenderInstruction) (start n : Nat)
    (acc : List RenderInstruction) (ins : RenderInstruction) :
    ins ∈ pushRange f start n acc →
    ins ∈ acc ∨ ∃ k, start ≤ k ∧ k < start + n ∧ ins = f k := by
  rw [pushRange_eq]
  simp only [List.mem_append, List.mem_map, List.mem_range'_1]
  rintro (h | ⟨k, ⟨hk1, hk2⟩, rfl⟩)
  · exact Or.inl h
  · exact Or.inr ⟨k, hk1, hk2, rfl⟩

theorem processOpcodes_bounds (la lb : Nat) :
    ∀ (ops : List Opcode) (acc : List RenderInstruction),
      (∀ op ∈ ops, op.i2 ≤ la ∧ op.j2 ≤ lb) →
      (∀ ins ∈ acc, instrInBounds la lb ins = true) →
      ∀ ins ∈ processOpcodes ops acc, instrInBounds la lb ins = true := by
  intro ops
  induction ops with
  | nil => intro acc _ hacc ins hmem; exact hacc ins hmem
  | cons op rest ih =>
      intro acc hops hacc ins hmem
      have hop1 : op.i2 ≤ la := (hops op (List.mem_cons_self _ _)).1
      have hop2 : op.j2 ≤ lb := (hops op (List.mem_cons_self _ _)).2
      have hrest : ∀ o ∈ rest, o.i2 ≤ la ∧ o.j2 ≤ lb :=
        fun o ho => hops o (List.mem_cons_of_mem _ ho)
      obtain ⟨tag, i1, i2, j1, j2⟩ := op
      have hi2 : i2 ≤ la := hop1
      have hj2 : j2 ≤ lb := hop2
      rw [processOpcodes] at hmem
      dsimp only at hmem
      cases tag with
      | equal =>
          refine ih _ hrest ?_ ins hmem
          intro ins' hins'
          rcases mem_pushRange _ _ _ _ _ hins' with h | ⟨k, hk1, hk2, rfl⟩
          · exact hacc ins' h
          · simp only [instrInBounds, decide_eq_true_eq]
            omega
      | delete =>
          refine ih _ hrest ?_ ins hmem
          intro ins' hins'
          rcases mem_pushRange _ _ _ _ _ hins' with h | ⟨k, hk1, hk2, rfl⟩
          · exact hacc ins' h
          · simp only [instrInBounds, decide_eq_true_eq]
            omega
      | insert =>
          refine ih _ hrest ?_ ins hmem
          intro ins' hins'
          rcases mem_pushRange _ _ _ _ _ hins' with h | ⟨k, hk1, hk2, rfl⟩
          · exact hacc ins' h
          · simp only [instrInBounds, decide_eq_true_eq]
            omega
      | replace =>
          refine ih _ hrest ?_ ins hmem
          intro ins' hins'
          rcases mem_pushRange _ _ _ _ _ hins' with h2 | ⟨k, hk1, hk2, rfl⟩
          · rcases mem_pushRange _ _ _ _ _ h2 with h3 | ⟨k, hk1, hk2, rfl⟩
            · rcases mem_pushRange _ _ _ _ _ h3 with h4 | ⟨k, hk1, hk2, rfl⟩
              · exact hacc ins' h4
              · simp only [instrInBounds, Bool.and_eq_true, decide_eq_true_eq]
                omega
            · simp only [instrInBounds, decide_eq_true_eq]
              omega
          · simp only [instrInBounds, decide_eq_true_eq]
            omega

theorem get_opcodes_bounds {α : Type} [DecidableEq α] (a b : List α) :
    ∀ op ∈ get_opcodes a b, op.i2 ≤ a.length ∧ op.j2 ≤ b.length := by
  intro op hmem
  exact opcodesLoop_bounds a.length b.length _ 0 0
    (get_matching_blocks_bounds a b) op hmem

theorem normalize_whitespace_length (l : List PyStr) :
    (normalize_whitespace l).length = l.length := by
  simp [normalize_whitespace]

theorem flmInner_append (i blo bhi : Nat) (old : Nat → Nat) :
    ∀ (l1 l2 : List Nat) (new : Nat → Nat) (best : FlmBest),
      flmInner i blo bhi old (l1 ++ l2) new best =
        flmInner i blo bhi old l2 (flmInner i blo bhi old l1 new best).1
          (flmInner i blo bhi old l1 new best).2 := by
  intro l1
  induction l1 with
  | nil => intro l2 new best; rfl
  | cons j js ih =>
      intro l2 new best
      rw [List.cons_append]
      by_cases hg : blo ≤ j ∧ j < bhi
      · rw [flmInner, if_pos hg, flmInner, if_pos hg]
        exact ih l2 _ _
      · rw [flmInner, if_neg hg, flmInner, if_neg hg]
        exact ih l2 _ _

theorem flmInner_noUpdate (i blo bhi : Nat) (old : Nat → Nat) :
    ∀ (js : List Nat) (new : Nat → Nat) (best : FlmBest),
      (∀ j ∈ js, blo ≤ j → j < bhi → kOf old j ≤ best.bestsize) →
      (flmInner i blo bhi old js new best).2 = best ∧
      ∀ x, x ∉ js → (flmInner i blo bhi old js new best).1 x = new x := by
  intro js
  induction js with
  | nil => intro new best _; exact ⟨rfl, fun _ _ => rfl⟩
  | cons j js ih =>
      intro new best h
      by_cases hg : blo ≤ j ∧ j < bhi
      · rw [flmInner, if_pos hg]
        have hk := h j (List.mem_cons_self _ _) hg.1 hg.2
        have hnotlt : ¬ best.bestsize < kOf old j := by omega
        simp only [if_neg hnotlt]
        obtain ⟨ih1, ih2⟩ := ih (fun x => if x = j then kOf old j else new x) best
          (fun j' hj' => h j' (List.mem_cons_of_mem _ hj'))
        refine ⟨ih1, ?_⟩
        intro x hx
        rw [ih2 x (fun hx' => hx (List.mem_cons_of_mem _ hx'))]
        have hxj : x ≠ j := fun hxj => hx (hxj ▸ List.mem_cons_self _ _)
        simp [if_neg hxj]
      · rw [flmInner, if_neg hg]
        obtain ⟨ih1, ih2⟩ := ih new best
          (fun j' hj' => h j' (List.mem_cons_of_mem _ hj'))
        exact ⟨ih1, fun x hx => ih2 x (fun hx' => hx (List.mem_cons_of_mem _ hx'))⟩

theorem flmInner_self_row {α : Type} [DecidableEq α] (l : List α) (i : Nat)
    (hi : i < l.length) (old : Nat → Nat)
    (holdBound : ∀ x, old x ≤ min (x + 1) i)
    (holdDiag : 1 ≤ i → old (i - 1) = i) :
    (flmInner i 0 l.length old (b2j l (l.get ⟨i, hi⟩)) (fun _ => 0) ⟨0, 0, i⟩).2 =
      ⟨0, 0, i + 1⟩ ∧
    (flmInner i 0 l.length old (b2j l (l.get ⟨i, hi⟩)) (fun _ => 0) ⟨0, 0, i⟩).1 i =
      i + 1 := by
  have hmem : i ∈ b2j l (l.get ⟨i, hi⟩) := by
    simp [b2j, List.mem_filter, List.mem_range, hi, List.get?_eq_get hi]
  obtain ⟨l1, l2, hsplit⟩ := List.append_of_mem hmem
  have hpw : (b2j l (l.get ⟨i, hi⟩)).Pairwise (· < ·) :=
    (List.pairwise_lt_range l.length).filter _
  rw [hsplit] at hpw
  obtain ⟨hpw1, hpw2, hcross⟩ := List.pairwise_append.mp hpw
  have hl1 : ∀ j ∈ l1, j < i := fun j hj => hcross j hj i (List.mem_cons_self _ _)
  have hl2 : ∀ j ∈ l2, i < j := (List.pairwise_cons.mp hpw2).1
  rw [hsplit, flmInner_append]
  have hnu1 : ∀ j ∈ l1, 0 ≤ j → j < l.length →
      kOf old j ≤ (⟨0, 0, i⟩ : FlmBest).bestsize := by
    intro j hj _ _
    have hji := hl1 j hj
    show kOf old j ≤ i
    unfold kOf
    by_cases h0 : j = 0
    · simp only [h0, if_true]
      omega
    · simp only [h0, if_false]
      have := holdBound (j - 1)
      omega
  obtain ⟨hb1, hn1⟩ := flmInner_noUpdate i 0 l.length old l1 (fun _ => 0) ⟨0, 0, i⟩ hnu1
  rw [hb1]
  have hguard : (0 ≤ i ∧ i < l.length) := ⟨Nat.zero_le i, hi⟩
  rw [flmInner, if_pos hguard]
  have hk : kOf old i = i + 1 := by
    unfold kOf
    by_cases h0 : i = 0
    · simp [h0]
    · simp only [h0, if_false]
      rw [holdDiag (by omega)]
  simp only [hk, Nat.lt_succ_self, if_true, Nat.sub_self]
  have hnu2 : ∀ j ∈ l2, 0 ≤ j → j < l.length →
      kOf old j ≤ (⟨0, 0, i + 1⟩ : FlmBest).bestsize := by
    intro j hj _ _
    have hji := hl2 j hj
    show kOf old j ≤ i + 1
    unfold kOf
    by_cases h0 : j = 0
    · omega
    · simp only [h0, if_false]
      have := holdBound (j - 1)
      omega
  obtain ⟨hb2, hn2⟩ :=
    flmInner_noUpdate i 0 l.length old l2
      (fun x => if x = i then i + 1 else
        (flmInner i 0 l.length old l1 (fun _ => 0) ⟨0, 0, i⟩).1 x)
      ⟨0, 0, i + 1⟩ hnu2
  refine ⟨hb2, ?_⟩
  rw [hn2 i (fun hmem2 => absurd (hl2 i hmem2) (lt_irrefl i))]
  simp

theorem collectBlocks_succ {α : Type} [DecidableEq α] (a b : List α)
    (fuel alo ahi blo bhi : Nat) :
    collectBlocks a b (fuel + 1) alo ahi blo bhi =
      (if (find_longest_match a b alo ahi blo bhi).bestsize ≠ 0 then
        (if alo < (find_longest_match a b alo ahi blo bhi).besti ∧
            blo < (find_longest_match a b alo ahi blo bhi).bestj then
          collectBlocks a b fuel alo (find_longest_match a b alo ahi blo bhi).besti
            blo (find_longest_match a b alo ahi blo bhi).bestj
        else []) ++
        [((find_longest_match a b alo ahi blo bhi).besti,
          (find_longest_match a b alo ahi blo bhi).bestj,
          (find_longest_match a b alo ahi blo bhi).bestsize)] ++
        (if (find_longest_match a b alo ahi blo bhi).besti +
              (find_longest_match a b alo ahi blo bhi).bestsize < ahi ∧
            (find_longest_match a b alo ahi blo bhi).bestj +
              (find_longest_match a b alo ahi blo bhi).bestsize < bhi then
          collectBlocks a b fuel
            ((find_longest_match a b alo ahi blo bhi).besti +
              (find_longest_match a b alo ahi blo bhi).bestsize) ahi
            ((find_longest_match a b alo ahi blo bhi).bestj +
              (find_longest_match a b alo ahi blo bhi).bestsize) bhi
        else [])
      else []) := rfl

theorem flmOuter_self {α : Type} [DecidableEq α] (l : List α) :
    ∀ (cnt i : Nat) (old : Nat → Nat),
      i + cnt = l.length →
      (∀ x, old x ≤ min (x + 1) i) →
      (1 ≤ i → old (i - 1) = i) →
      flmOuter l l 0 l.length (List.range' i cnt) old ⟨0, 0, i⟩ = ⟨0, 0, l.length⟩ := by
  intro cnt
  induction cnt with
  | zero =>
      intro i old hin _ _
      have : i = l.length := by omega
      subst this
      rfl
  | succ m ih =>
      intro i old hin hbound hdiag
      rw [List.range'_succ, flmOuter]
      have hi : i < l.length := by omega
      have hget : l.get? i = some (l.get ⟨i, hi⟩) := List.get?_eq_get hi
      simp only [hget]
      obtain ⟨hbest, hdiagNew⟩ := flmInner_self_row l i hi old hbound hdiag
      have hboundNew :=
        (flmInner_inv i 0 l.length 0 l.length old
          (fun x => by simpa using hbound x) (Nat.zero_le i) hi
          (b2j l (l.get ⟨i, hi⟩)) (fun _ => 0) ⟨0, 0, i⟩
          (fun x => by positivity)
          ⟨Nat.zero_le _, Nat.zero_le _,
            by show 0 + i ≤ l.length; omega, by show 0 + i ≤ l.length; omega⟩).1
      rw [hbest]
      exact ih (i + 1) _ (by omega)
        (fun x => by simpa using hboundNew x)
        (fun _ => by simpa using hdiagNew)

theorem find_longest_match_self {α : Type} [DecidableEq α] (l : List α) :
    find_longest_match l l 0 l.length 0 l.length = ⟨0, 0, l.length⟩ := by
  unfold find_longest_match
  have houter : flmOuter l l 0 l.length (List.range' 0 (l.length - 0)) (fun _ => 0)
      ⟨0, 0, 0⟩ = ⟨0, 0, l.length⟩ :=
    flmOuter_self l (l.length - 0) 0 (fun _ => 0) (by omega)
      (fun x => by positivity) (by omega)
  rw [houter]
  show extendFwd l l l.length l.length (extendBack l l 0 0 ⟨0, 0, l.length⟩) =
    (⟨0, 0, l.length⟩ : FlmBest)
  rw [extendBack.eq_def]
  rw [dif_neg (by simp)]
  rw [extendFwd.eq_def]
  rw [dif_neg (by simp)]

theorem get_matching_blocks_self {α : Type} [DecidableEq α] (l : List α) :
    get_matching_blocks l l =
      if l.length = 0 then [(0, 0, 0)]
      else [(0, 0, l.length), (l.length, l.length, 0)] := by
  unfold get_matching_blocks
  show mergeAdjacent 0 0 0
      (collectBlocks l l (l.length + l.length + 1) 0 l.length 0 l.length) ++
      [(l.length, l.length, 0)] = _
  rw [collectBlocks_succ, find_longest_match_self]
  by_cases hn : l.length = 0
  · rw [if_pos hn]
    simp only [hn]
    rfl
  · rw [if_neg hn]
    have h1 : (⟨0, 0, l.length⟩ : FlmBest).bestsize ≠ 0 := hn
    rw [if_pos h1]
    rw [if_neg (by simp), if_neg (by simp)]
    simp only [List.nil_append, List.append_nil]
    rw [mergeAdjacent]
    rw [if_pos (by constructor <;> rfl)]
    rw [mergeAdjacent]
    rw [if_pos (by simpa using hn)]
    simp

theorem get_opcodes_self {α : Type} [DecidableEq α] (l : List α) :
    get_opcodes l l =
      if l.length = 0 then [] else [⟨.equal, 0, l.length, 0, l.length⟩] := by
  unfold get_opcodes
  rw [get_matching_blocks_self]
  by_cases hn : l.length = 0
  · rw [if_pos hn, if_pos hn]
    rfl
  · rw [if_neg hn, if_neg hn]
    rw [opcodesLoop]
    rw [if_neg (by simp), if_neg (by simp), if_neg (by simp), if_pos hn]
    rw [opcodesLoop]
    rw [if_neg (by simp), if_neg (by simp), if_neg (by simp), if_neg (by simp)]
    rw [opcodesLoop]
    simp [Nat.zero_add]

/-!
Claim theorems.
-/

/-- C1, counterexample: `normalize_indents` applied to the raw indent
sequence `[0, 3, 1, 5]` does not produce the indents `[0, 1, 2, 2]` the spec
states (the third indent is clamped to `min 1 (1 + 1) = 1`, not raised
to 2). -/
theorem c1_counterexample :
    (normalize_indents [(0, "a".toList), (3, "b".toList), (1, "c".toList),
        (5, "d".toList)]).map Prod.fst ≠ [0, 1, 2, 2] := by
  decide

/-- C1, amended: applying `normalize_indents` to any four `(indent, text)`
tuples with raw indents `[0, 3, 1, 5]` yields tuples with indents
`[0, 1, 1, 2]` (not `[0, 1, 2, 2]`); no normalized indent exceeds its
predecessor by more than 1. -/
theorem c1_normalize_raw_depths : ∀ t1 t2 t3 t4 : PyStr,
    (normalize_indents [(0, t1), (3, t2), (1, t3), (5, t4)]).map Prod.fst =
      [0, 1, 1, 2] :=
  fun _ _ _ _ => rfl

/-- C7: for every list of `(indent, text)` tuples, the output of
`normalize_indents` starts at indent 0 and every later indent is at most one
greater than the previous normalized indent. -/
theorem c7_depth_invariant {α : Type} : ∀ lines : List (Nat × α),
    depthNormalized (normalize_indents lines) = true := by
  intro lines
  cases lines with
  | nil => rfl
  | cons hd tl =>
      obtain ⟨d, t⟩ := hd
      simp only [normalize_indents, depthNormalized, Bool.and_eq_true, decide_eq_true_eq]
      exact ⟨trivial, chainOk_normalizeIndentsAux tl 0⟩

/-- C3, counterexample: the claim says every hostname that has an allowed
domain as a mere string suffix without a dot boundary is rejected, but the
validator `validate_url` of compare.py accepts `https://evilcdc.gov/`
against the allowed domain `cdc.gov` (its check is a plain `endswith` on the
netloc). -/
theorem c3_counterexample :
    validate_url ⟨"https".toList, "evilcdc.gov".toList, some "evilcdc.gov".toList⟩
      ["cdc.gov".toList] = true := by
  decide

/-- C3, amended: the processor's validator `_validate_url` accepts exactly
when the scheme is allowed, netloc and hostname are nonempty, and the
lowercased hostname equals a lowercased allowed entry or (with subdomain
matching enabled) ends with `"." + entry` — so it rejects dot-boundary
violations such as `evilcdc.gov`; the compare.py validator `validate_url`,
however, accepts whenever the lowercased netloc merely ends with an allowed
domain, with no dot boundary. -/
theorem c3_amended_host_validation :
    (∀ (u : ParsedUrl) (schemes hosts : List PyStr) (subs : Bool),
      validate_url_internal u schemes hosts subs = true ↔
        (u.scheme ≠ [] ∧ pyLower u.scheme ∈ schemes ∧ u.netloc ≠ [] ∧
          pyLower (u.hostname.getD []) ≠ [] ∧
          ∃ entry ∈ hosts,
            pyLower (u.hostname.getD []) = pyLower entry ∨
              (subs = true ∧
                ('.' :: pyLower entry).isSuffixOf (pyLower (u.hostname.getD [])) = true))) ∧
    (∀ (u : ParsedUrl) (domains : List PyStr),
      validate_url u domains = true ↔
        ((u.scheme = "http".toList ∨ u.scheme = "https".toList) ∧
          ∃ domain ∈ domains, (pyLower domain).isSuffixOf (pyLower u.netloc) = true)) ∧
    validate_url_internal
        ⟨"https".toList, "evilcdc.gov".toList, some "evilcdc.gov".toList⟩
        ["https".toList] ["cdc.gov".toList] true = false := by
  refine ⟨?_, ?_, by decide⟩
  · intro u schemes hosts subs
    unfold validate_url_internal
    split_ifs with h1 h2 h3 <;>
      simp_all [List.any_eq_true] <;> tauto
  · intro u domains
    unfold validate_url
    split_ifs with h1 h2 <;> simp_all [List.any_eq_true]

/-- C6: for a `replace` opcode with range sizes `n_removed = i2 - i1` and
`n_added = j2 - j1`, the formatter emits exactly `min n_removed n_added`
`replace` instructions pairing line `i1 + k` with line `j1 + k`, followed by
pure `removed` instructions for the excess A-side lines and pure `added`
instructions for the excess B-side lines (at most one of the two excess runs
is nonempty), all in original index order. -/
theorem c6_replace_pairing :
    ∀ (i1 i2 j1 j2 : Nat) (rest : List Opcode) (acc : List RenderInstruction),
      processOpcodes (⟨.replace, i1, i2, j1, j2⟩ :: rest) acc =
        processOpcodes rest
          (acc ++
            (List.range' 0 (min (i2 - i1) (j2 - j1))).map
              (fun k => .replace (i1 + k) (j1 + k)) ++
            (List.range' (min (i2 - i1) (j2 - j1))
                ((i2 - i1) - min (i2 - i1) (j2 - j1))).map
              (fun k => .removed (i1 + k)) ++
            (List.range' (min (i2 - i1) (j2 - j1))
                ((j2 - j1) - min (i2 - i1) (j2 - j1))).map
              (fun k => .added (j1 + k))) := by
  intro i1 i2 j1 j2 rest acc
  simp [processOpcodes, pushRange_eq, List.append_assoc]

set_option maxRecDepth 8192 in
/-- C2, counterexample: on the compare.py path the claim fails.  The archived
fetch has failed — `fetch_html` returned the empty string — yet
`generate_comparison` returns an ordinary successful table (`Except.ok`, so
no `is_error`, no error slot): its live-side hidden cell is populated with
the extracted live text, and its diff cell contains the output of the diff
engine — `tuple_diff` ran on the partial data and emitted the live line as an
ADDED-styled span.  The second conjunct isolates that diff-engine run: on the
empty archived side versus the one live line, `tuple_diff` yields one
insert group.  Both contradict "the comparison result has is_error true, the
diff engine is never invoked, lines_a and lines_b are both empty". -/
theorem c2_counterexample :
    generate_comparison_full extract_example
        ⟨"https".toList, "restoredcdc.org".toList, some "restoredcdc.org".toList⟩
        ⟨"https".toList, "www.cdc.gov".toList, some "www.cdc.gov".toList⟩
        [] "<p>Welcome</p>".toList =
      Except.ok (comparison_table
        []
        (divWrap 0 "Welcome".toList)
        (divWrap 0 (spanWrap ADDED_STYLE "Welcome".toList))) ∧
    tuple_diff [] [(0, "Welcome".toList)] true true true true false true =
      [[(0, spanWrap ADDED_STYLE "Welcome".toList)]] :=
  ⟨by rfl, by rfl⟩

/-- C2, amended: in `get_comparison_data`, a failure outcome — an
`"Error:"`-prefixed fetch result — on either side short-circuits exactly as
the claim states: `is_error` is set, the diff engine is never reached (both
line lists and the instruction list stay empty), and only the failing side's
error slot is populated, the succeeding side's staying `None`.  In
`generate_comparison`, however, a fetch failure yields empty content and
there is no short-circuit at all: for every extraction and live document,
the pipeline proceeds past the empty archived side into `produce_visible_diff`
— the diff engine runs on the partial data — and an ordinary table is
returned with no error indication. -/
theorem c2_amended_short_circuit :
    (∀ (url_a url_b : ParsedUrl) (host text_orig_A text_orig_B : PyStr),
      validate_url_internal url_a ["http".toList, "https".toList]
          (allowed_archive_hosts host) false = true →
      validate_url_internal url_b ["https".toList] ["cdc.gov".toList] true = true →
      (startsWithError text_orig_A = true ∨ startsWithError text_orig_B = true) →
      (get_comparison_data url_a url_b host text_orig_A text_orig_B).is_error = true ∧
      (get_comparison_data url_a url_b host text_orig_A text_orig_B).lines_orig_A = [] ∧
      (get_comparison_data url_a url_b host text_orig_A text_orig_B).lines_orig_B = [] ∧
      (get_comparison_data url_a url_b host text_orig_A text_orig_B).render_instructions = [] ∧
      (get_comparison_data url_a url_b host text_orig_A text_orig_B).error_msg1 =
        (if startsWithError text_orig_A then some text_orig_A else none) ∧
      (get_comparison_data url_a url_b host text_orig_A text_orig_B).error_msg2 =
        (if startsWithError text_orig_B then some text_orig_B else none)) ∧
    (∀ (extract : PyStr → List (Nat × PyStr)) (restored_url current_url : ParsedUrl)
        (current_html : PyStr),
      validate_url restored_url ["restoredcdc.org".toList] = true →
      validate_url current_url ["cdc.gov".toList] = true →
      generate_comparison_full extract restored_url current_url [] current_html =
        Except.ok (comparison_table
          (flatten_diff_html_tuples (normalize_indents (extract [])))
          (flatten_diff_html_tuples (normalize_indents (extract current_html)))
          (produce_visible_diff extract [] current_html))) := by
  constructor
  · intro uA uB host tA tB hA hB herr
    unfold get_comparison_data
    rcases hEA : startsWithError tA with _ | _ <;>
      rcases hEB : startsWithError tB with _ | _ <;>
        simp_all
  · intro extract restored current current_html h1 h2
    unfold generate_comparison_full
    rw [h1, h2]
    simp

/-- C2 witness: a concrete processor run in which the archived-side fetch
timed out and the live side succeeded. -/
theorem c2_witness :
    (validate_url_internal ⟨"http".toList, "localhost".toList, some "localhost".toList⟩
        ["http".toList, "https".toList] (allowed_archive_hosts "localhost".toList)
        false = true ∧
      validate_url_internal ⟨"https".toList, "www.cdc.gov".toList, some "www.cdc.gov".toList⟩
        ["https".toList] ["cdc.gov".toList] true = true ∧
      startsWithError "Error: Page load timed out after 20s for x".toList = true) ∧
    (get_comparison_data ⟨"http".toList, "localhost".toList, some "localhost".toList⟩
        ⟨"https".toList, "www.cdc.gov".toList, some "www.cdc.gov".toList⟩
        "localhost".toList "Error: Page load timed out after 20s for x".toList
        "All fine here".toList).is_error = true ∧
    (get_comparison_data ⟨"http".toList, "localhost".toList, some "localhost".toList⟩
        ⟨"https".toList, "www.cdc.gov".toList, some "www.cdc.gov".toList⟩
        "localhost".toList "Error: Page load timed out after 20s for x".toList
        "All fine here".toList).lines_orig_A = [] ∧
    (get_comparison_data ⟨"http".toList, "localhost".toList, some "localhost".toList⟩
        ⟨"https".toList, "www.cdc.gov".toList, some "www.cdc.gov".toList⟩
        "localhost".toList "Error: Page load timed out after 20s for x".toList
        "All fine here".toList).lines_orig_B = [] ∧
    (get_comparison_data ⟨"http".toList, "localhost".toList, some "localhost".toList⟩
        ⟨"https".toList, "www.cdc.gov".toList, some "www.cdc.gov".toList⟩
        "localhost".toList "Error: Page load timed out after 20s for x".toList
        "All fine here".toList).render_instructions = [] ∧
    (get_comparison_data ⟨"http".toList, "localhost".toList, some "localhost".toList⟩
        ⟨"https".toList, "www.cdc.gov".toList, some "www.cdc.gov".toList⟩
        "localhost".toList "Error: Page load timed out after 20s for x".toList
        "All fine here".toList).error_msg1 =
      (if startsWithError "Error: Page load timed out after 20s for x".toList then
        some "Error: Page load timed out after 20s for x".toList else none) ∧
    (get_comparison_data ⟨"http".toList, "localhost".toList, some "localhost".toList⟩
        ⟨"https".toList, "www.cdc.gov".toList, some "www.cdc.gov".toList⟩
        "localhost".toList "Error: Page load timed out after 20s for x".toList
        "All fine here".toList).error_msg2 =
      (if startsWithError "All fine here".toList then
        some "All fine here".toList else none) :=
  ⟨⟨by decide, by decide, by decide⟩,
    c2_amended_short_circuit.1 _ _ _ _ _ (by decide) (by decide) (Or.inl (by decide))⟩

/-- C4, counterexample: `generate_comparison` of compare.py does not return a
structured result on URL-validation failure — it raises `ValueError`
(embedded as `Except.error`), here on an archived URL whose host is
`evil.example`. -/
theorem c4_counterexample :
    generate_comparison
        ⟨"https".toList, "evil.example".toList, some "evil.example".toList⟩
        ⟨"https".toList, "www.cdc.gov".toList, some "www.cdc.gov".toList⟩ [] =
      Except.error "Archived URL is not allowed. Must be on restoredcdc.org.".toList := by
  rfl

/-- C4, amended: the processor entry point `get_comparison_data` is total and
always yields a fully-populated structured result whose error slots are
consistent with `is_error` — no error means both slots are `None`, an error
means at least one slot carries a message; `generate_comparison` of
compare.py, by contrast, raises `ValueError` on URL-validation failure
(see the counterexample). -/
theorem c4_structured_result :
    ∀ (url_a url_b : ParsedUrl) (host text_orig_A text_orig_B : PyStr),
      ((get_comparison_data url_a url_b host text_orig_A text_orig_B).is_error = false →
        (get_comparison_data url_a url_b host text_orig_A text_orig_B).error_msg1 = none ∧
        (get_comparison_data url_a url_b host text_orig_A text_orig_B).error_msg2 = none) ∧
      ((get_comparison_data url_a url_b host text_orig_A text_orig_B).is_error = true →
        (get_comparison_data url_a url_b host text_orig_A text_orig_B).error_msg1 ≠ none ∨
        (get_comparison_data url_a url_b host text_orig_A text_orig_B).error_msg2 ≠ none) := by
  intro uA uB host tA tB
  unfold get_comparison_data
  rcases hEA : startsWithError tA with _ | _ <;>
    rcases hEB : startsWithError tB with _ | _ <;>
      split_ifs <;> simp_all [archiveValidationError, liveValidationError]

/-- C4 witness: a concrete successful run, with both error slots `None`. -/
theorem c4_witness :
    (get_comparison_data ⟨"http".toList, "localhost".toList, some "localhost".toList⟩
        ⟨"https".toList, "www.cdc.gov".toList, some "www.cdc.gov".toList⟩
        "localhost".toList "x".toList "y".toList).is_error = false ∧
    (get_comparison_data ⟨"http".toList, "localhost".toList, some "localhost".toList⟩
        ⟨"https".toList, "www.cdc.gov".toList, some "www.cdc.gov".toList⟩
        "localhost".toList "x".toList "y".toList).error_msg1 = none ∧
    (get_comparison_data ⟨"http".toList, "localhost".toList, some "localhost".toList⟩
        ⟨"https".toList, "www.cdc.gov".toList, some "www.cdc.gov".toList⟩
        "localhost".toList "x".toList "y".toList).error_msg2 = none := by
  refine ⟨by decide, ?_⟩
  have h := (c4_structured_result
    ⟨"http".toList, "localhost".toList, some "localhost".toList⟩
    ⟨"https".toList, "www.cdc.gov".toList, some "www.cdc.gov".toList⟩
    "localhost".toList "x".toList "y".toList).1 (by decide)
  exact h

/-- C5, counterexample: the generic `PlaywrightError` navigation handler of
`fetch_and_process_url` embeds the first line of `str(e)` — raw exception
text — in the returned failure string. -/
theorem c5_counterexample :
    containsSub "boom".toList
      (navigationErrorMessage "https://x".toList
        (.playwrightError "boom".toList)) = true := by
  decide

/-- C5, amended: the timeout, DNS-failure, connection-refused and
unexpected-exception messages are categorized and carry no exception text
(the unexpected branches carry only the exception type name, independently of
the message), but the generic `PlaywrightError` navigation handler and the
browser-setup handler append the first line of `str(e)` to their
messages. -/
theorem c5_amended_error_messages :
    (∀ url typeName msg msg' : PyStr,
      navigationErrorMessage url (.otherError typeName msg) =
        navigationErrorMessage url (.otherError typeName msg')) ∧
    (∀ url : PyStr,
      navigationErrorMessage url .timeout =
        "Error: Page load timed out after 20s for ".toList ++ url) ∧
    (∀ url msg : PyStr,
      containsSub "net::ERR_NAME_NOT_RESOLVED".toList msg = false →
      containsSub "net::ERR_CONNECTION_REFUSED".toList msg = false →
      navigationErrorMessage url (.playwrightError msg) =
        "Error: Browser navigation error for ".toList ++ url ++ ": ".toList ++
          firstLine msg) ∧
    (∀ url msg : PyStr,
      setupErrorMessage url msg =
        "Error: Browser automation setup error for ".toList ++ url ++ ": ".toList ++
          firstLine msg) := by
  refine ⟨fun url tn msg msg' => rfl, fun url => rfl, ?_, fun url msg => rfl⟩
  intro url msg h1 h2
  simp only [navigationErrorMessage, h1, h2, Bool.false_eq_true, if_false]

/-- C5 witness: the generic `PlaywrightError` branch at a concrete exception
text. -/
theorem c5_witness :
    (containsSub "net::ERR_NAME_NOT_RESOLVED".toList "boom".toList = false ∧
      containsSub "net::ERR_CONNECTION_REFUSED".toList "boom".toList = false) ∧
    navigationErrorMessage "u".toList (.playwrightError "boom".toList) =
      "Error: Browser navigation error for ".toList ++ "u".toList ++ ": ".toList ++
        firstLine "boom".toList :=
  ⟨⟨by decide, by decide⟩,
    c5_amended_error_messages.2.2.1 "u".toList "boom".toList (by decide) (by decide)⟩

/-- C8: diffing a line list `A` against an identical copy of itself produces
only `unchanged` instructions, exactly `A.length` of them, the k-th
referencing index k: the instruction list is precisely
`[unchanged 0, unchanged 1, ..., unchanged (A.length - 1)]`. -/
theorem c8_diff_idempotence :
    ∀ A : List PyStr,
      processOpcodes (get_opcodes A A) [] =
        (List.range A.length).map RenderInstruction.unchanged := by
  intro A
  rw [get_opcodes_self]
  by_cases hn : A.length = 0
  · rw [if_pos hn, hn]
    rfl
  · rw [if_neg hn]
    rw [processOpcodes]
    dsimp only
    rw [processOpcodes, pushRange_eq, List.range_eq_range']
    simp

/-- C9: in every successful comparison result (`is_error = false`), each
render instruction references only indices inside the returned original line
lists: `line_index_a < lines_orig_A.length` and
`line_index_b < lines_orig_B.length` (the lower bound `0 ≤ index` is
automatic for `Nat` indices).  Whitespace normalization preserves list
length, so the opcode ranges over the normalized sequences are valid indices
into the original sequences. -/
theorem c9_instruction_bounds :
    ∀ (url_a url_b : ParsedUrl) (host text_orig_A text_orig_B : PyStr),
      (get_comparison_data url_a url_b host text_orig_A text_orig_B).is_error = false →
      (get_comparison_data url_a url_b host text_orig_A text_orig_B).render_instructions.all
        (instrInBounds
          (get_comparison_data url_a url_b host text_orig_A text_orig_B).lines_orig_A.length
          (get_comparison_data url_a url_b host text_orig_A text_orig_B).lines_orig_B.length)
        = true := by
  intro uA uB host tA tB herr
  unfold get_comparison_data at herr ⊢
  by_cases h1 : validate_url_internal uA ["http".toList, "https".toList]
      (allowed_archive_hosts host) false = false
  · rw [if_pos h1] at herr
    simp [archiveValidationError] at herr
  · rw [if_neg h1] at herr ⊢
    by_cases h2 : validate_url_internal uB ["https".toList] ["cdc.gov".toList] true = false
    · rw [if_pos h2] at herr
      simp [liveValidationError] at herr
    · rw [if_neg h2] at herr ⊢
      rcases hEA : startsWithError tA with _ | _ <;>
        rcases hEB : startsWithError tB with _ | _
      case neg.false.false =>
        simp only [hEA, hEB, Bool.or_self, Bool.false_eq_true, if_false] at herr ⊢
        rw [List.all_eq_true]
        intro ins hmem
        refine processOpcodes_bounds _ _ _ [] ?_ (by simp) ins hmem
        intro op hop
        have h := get_opcodes_bounds _ _ op hop
        rw [normalize_whitespace_length, normalize_whitespace_length] at h
        exact h
      all_goals simp [hEA, hEB] at herr

/-- C9 witness: a concrete successful comparison whose instructions all lie
within bounds. -/
theorem c9_witness :
    (get_comparison_data ⟨"http".toList, "localhost".toList, some "localhost".toList⟩
        ⟨"https".toList, "www.cdc.gov".toList, some "www.cdc.gov".toList⟩
        "localhost".toList "a\nb".toList "a\nc".toList).is_error = false ∧
    (get_comparison_data ⟨"http".toList, "localhost".toList, some "localhost".toList⟩
        ⟨"https".toList, "www.cdc.gov".toList, some "www.cdc.gov".toList⟩
        "localhost".toList "a\nb".toList "a\nc".toList).render_instructions.all
      (instrInBounds
        (get_comparison_data ⟨"http".toList, "localhost".toList, some "localhost".toList⟩
          ⟨"https".toList, "www.cdc.gov".toList, some "www.cdc.gov".toList⟩
          "localhost".toList "a\nb".toList "a\nc".toList).lines_orig_A.length
        (get_comparison_data ⟨"http".toList, "localhost".toList, some "localhost".toList⟩
          ⟨"https".toList, "www.cdc.gov".toList, some "www.cdc.gov".toList⟩
          "localhost".toList "a\nb".toList "a\nc".toList).lines_orig_B.length) = true :=
  ⟨by decide,
    c9_instruction_bounds ⟨"http".toList, "localhost".toList, some "localhost".toList⟩
      ⟨"https".toList, "www.cdc.gov".toList, some "www.cdc.gov".toList⟩
      "localhost".toList "a\nb".toList "a\nc".toList (by decide)⟩

/-- C10: when the caller host string is empty the archived-side allow-list is
empty, so for every archived URL `get_comparison_data` fails closed: it
returns the archived-side validation-error result — `is_error` true, the
archived-side message set, the live-side slot `None`, all line lists and
instructions empty — independently of whatever the fetches would have
returned. -/
theorem c10_empty_host_fails_closed :
    ∀ (url_a url_b : ParsedUrl) (text_orig_A text_orig_B : PyStr),
      get_comparison_data url_a url_b [] text_orig_A text_orig_B =
        { lines_orig_A := []
          lines_orig_B := []
          render_instructions := []
          is_error := true
          error_msg1 := some "Error: Invalid or disallowed URL for archived content.".toList
          error_msg2 := none } := by
  intro url_a url_b tA tB
  have h : allowed_archive_hosts [] = [] := rfl
  simp [get_comparison_data, h, validate_url_internal_no_hosts, archiveValidationError]

end CdcCompare
